import Mathlib

/-!
Verification of the bounded-concurrency parallel chunk reader in
fileReader.go (package filereader). The definitions below are a shallow
embedding of asyncReadFile (lines 59-109) and readChunk (lines 111-122):
pure arithmetic becomes Lean functions on Nat, the I/O and synchronization
calls of one run become an explicit list of effects, and the interleaving of
the dispatch loop with the worker goroutines becomes a small-step transition
relation on an orchestration state.
-/

namespace FileReader

/-- chunk size that each asynchronous goroutine reads, from the constant
asyncChunkSize = 1024 * 1024 at line 20 of fileReader.go. -/
def asyncChunkSize : Nat := 1024 * 1024

/-- number of goroutines spawned by asyncReadFile (lines 69-73): integer
division of the file size by the chunk size, plus one more when leftover
bytes remain. The chunk size is a parameter here; the source always passes
the constant asyncChunkSize. -/
def concurrency (filesize chunkSize : Nat) : Nat :=
  let c := filesize / chunkSize
  if filesize % chunkSize ≠ 0 then c + 1 else c

/-- chunkOffset array built by asyncReadFile (lines 78-85): element i is
chunkSize * i, one element per goroutine. -/
def chunkOffset (filesize chunkSize : Nat) : List Nat :=
  (List.range (concurrency filesize chunkSize)).map (fun i => chunkSize * i)

/-- a non-nil Go error value as seen by readChunk: io.EOF or any other
error. -/
inductive GoErr where
  | eof
  | ioErr
deriving DecidableEq, Repr

/-- return value of os.File.ReadAt: the number of bytes read and the error
(none models a nil error). -/
structure ReadAtResult where
  n : Nat
  err : Option GoErr
deriving DecidableEq, Repr

/-- observable operations performed by asyncReadFile and readChunk: calls on
the file handle, logging, process exit, and the synchronization operations on
the bounded channel and the wait-group. -/
inductive Effect where
  | fileStat
  | fileReadAt (off len : Nat)
  | fileClose
  | logPrintln
  | osExit
  | wgAdd
  | chanSend
  | chanReceive
  | wgDone
  | wgWait
deriving DecidableEq, Repr

/-- readChunk (fileReader.go lines 111-122) as the list of operations the
goroutine performs. The argument env models the outcome the operating system
gives to file.ReadAt for a given offset and requested length. The goroutine
reads a full asyncChunkSize buffer at chunkOffset[i]; when the error is
non-nil and not io.EOF it logs and returns at line 117, otherwise it receives
from the channel and calls wg.Done (lines 120-121). -/
def readChunk (env : Nat → Nat → ReadAtResult) (chunkOffset : List Nat)
    (i : Nat) : List Effect :=
  let off := chunkOffset.getD i 0
  let res := env off asyncChunkSize
  if res.err ≠ none ∧ res.err ≠ some GoErr.eof then
    [Effect.fileReadAt off asyncChunkSize, Effect.logPrintln]
  else
    [Effect.fileReadAt off asyncChunkSize, Effect.chanReceive, Effect.wgDone]

/-- ReadAt outcome on a healthy file of fsize bytes: a full read when the
requested range fits, otherwise a short read of the remaining bytes together
with io.EOF. -/
def healthyReadAt (fsize : Nat) : Nat → Nat → ReadAtResult := fun off len =>
  if off + len ≤ fsize then ⟨len, none⟩
  else ⟨fsize - off, some GoErr.eof⟩

/-- asyncReadFile (fileReader.go lines 59-109) as the sequence of operations
of one run, in dispatch order. statSize is none when file.Stat fails, in
which case the function logs the error and returns (lines 61-64). Otherwise
it computes the chunk plan and, for each planned index in order, calls
wg.Add(1), sends into the bounded channel and runs readChunk, finishing with
wg.Wait (lines 102-108). -/
def asyncReadFileEffects (statSize : Option Nat)
    (env : Nat → Nat → ReadAtResult) : List Effect :=
  match statSize with
  | none => [Effect.fileStat, Effect.logPrintln]
  | some filesize =>
      let offsets := chunkOffset filesize asyncChunkSize
      Effect.fileStat ::
        ((List.range (concurrency filesize asyncChunkSize)).flatMap
          (fun i => Effect.wgAdd :: Effect.chanSend :: readChunk env offsets i))
        ++ [Effect.wgWait]

/-- state of the file handle visible to the package: the file size and
whether the handle is still open. -/
structure FileHandle where
  size : Nat
  isOpen : Bool
deriving DecidableEq, Repr

/-- effect of one operation on the file handle: a close marks the handle
closed; stat and positioned reads leave the handle unchanged (a positioned
read carries its own offset and moves no shared cursor). -/
def applyEffect (f : FileHandle) (e : Effect) : FileHandle :=
  match e with
  | Effect.fileClose => { f with isOpen := false }
  | _ => f

/-- state of the file handle after a sequence of operations. -/
def applyEffects (f : FileHandle) (es : List Effect) : FileHandle :=
  es.foldl applyEffect f

/-- lengths requested from the file by the positioned reads in a list of
operations. -/
def requestedLengths (es : List Effect) : List Nat :=
  es.filterMap fun e =>
    match e with
    | Effect.fileReadAt _ len => some len
    | _ => none

/-- state of one asyncReadFile run: loop iterations still to dispatch,
elements currently in the bounded channel, workers currently executing their
chunk read (spawned and not yet done with lines 113-118), and the wait-group
counter. -/
structure OrchState where
  toDispatch : Nat
  slots : Nat
  reading : Nat
  wg : Nat
deriving DecidableEq, Repr

/-- interleaved small-step semantics of the dispatch loop (lines 102-106)
and the worker goroutines (lines 111-122), with channel capacity cap
(runtime.NumCPU()). A dispatch step is wg.Add(1) followed by the channel
send, which is enabled only while the channel has room, followed by the
spawn; finishOk is a worker finishing its read and reaching lines 120-121,
receiving from the channel and calling wg.Done; finishFail is a worker
returning at line 117 after a non-EOF read error, releasing neither the
channel element nor the wait-group. -/
inductive OrchStep (cap : Nat) : OrchState → OrchState → Prop where
  | dispatch (s : OrchState) (hd : s.toDispatch ≠ 0) (hs : s.slots < cap) :
      OrchStep cap s ⟨s.toDispatch - 1, s.slots + 1, s.reading + 1, s.wg + 1⟩
  | finishOk (s : OrchState) (hr : s.reading ≠ 0) (hs : s.slots ≠ 0) :
      OrchStep cap s ⟨s.toDispatch, s.slots - 1, s.reading - 1, s.wg - 1⟩
  | finishFail (s : OrchState) (hr : s.reading ≠ 0) :
      OrchStep cap s ⟨s.toDispatch, s.slots, s.reading - 1, s.wg⟩

/-- states reachable from a state by zero or more interleaved steps. -/
inductive Reachable (cap : Nat) : OrchState → OrchState → Prop where
  | refl (s : OrchState) : Reachable cap s s
  | step {s t u : OrchState} :
      Reachable cap s t → OrchStep cap t u → Reachable cap s u

/-- state at the start of the dispatch loop for a plan of n chunks: nothing
dispatched, channel empty, no worker running, wait-group at zero. -/
def initState (n : Nat) : OrchState := ⟨n, 0, 0, 0⟩

/-- auxiliary invariant of the run: the number of workers inside their read
never exceeds the channel occupancy, the channel occupancy never exceeds the
capacity, and the wait-group counter dominates the number of running
workers. -/
theorem orch_invariant {cap n : Nat} {s : OrchState}
    (h : Reachable cap (initState n) s) :
    s.reading ≤ s.slots ∧ s.slots ≤ cap ∧ s.reading ≤ s.wg := by
  induction h with
  | refl => simp [initState]
  | step _ hstep ih =>
      obtain ⟨h1, h2, h3⟩ := ih
      cases hstep <;> dsimp only <;> omega

/-- auxiliary: concurrency computes the ceiling of filesize / chunkSize. -/
theorem concurrency_eq_ceil (filesize chunkSize : Nat) (hc : 0 < chunkSize) :
    concurrency filesize chunkSize = (filesize + chunkSize - 1) / chunkSize := by
  have hdm := Nat.div_add_mod filesize chunkSize
  have hml := Nat.mod_lt filesize hc
  by_cases hr : filesize % chunkSize = 0
  · have hcc : concurrency filesize chunkSize = filesize / chunkSize := by
      simp [concurrency, hr]
    have h1 : (chunkSize - 1) / chunkSize = 0 := Nat.div_eq_of_lt (by omega)
    have hnum : filesize + chunkSize - 1 =
        chunkSize * (filesize / chunkSize) + (chunkSize - 1) := by omega
    rw [hcc, hnum, Nat.mul_add_div hc, h1]
    omega
  · have hcc : concurrency filesize chunkSize = filesize / chunkSize + 1 := by
      simp [concurrency, hr]
    have h1 : (filesize % chunkSize - 1) / chunkSize = 0 :=
      Nat.div_eq_of_lt (by omega)
    have hmul : chunkSize * (filesize / chunkSize + 1) =
        chunkSize * (filesize / chunkSize) + chunkSize := by ring
    have hnum : filesize + chunkSize - 1 =
        chunkSize * (filesize / chunkSize + 1) + (filesize % chunkSize - 1) := by
      omega
    rw [hcc, hnum, Nat.mul_add_div hc, h1]

/-- auxiliary: every planned index yields an offset below the file size. -/
theorem mul_lt_of_lt_concurrency {filesize chunkSize i : Nat}
    (hc : 0 < chunkSize) (hi : i < concurrency filesize chunkSize) :
    chunkSize * i < filesize := by
  have hdm := Nat.div_add_mod filesize chunkSize
  have hml := Nat.mod_lt filesize hc
  by_cases hr : filesize % chunkSize = 0
  · have hcc : concurrency filesize chunkSize = filesize / chunkSize := by
      simp [concurrency, hr]
    rw [hcc] at hi
    have hle : chunkSize * (i + 1) ≤ chunkSize * (filesize / chunkSize) :=
      Nat.mul_le_mul_left chunkSize hi
    have hmul : chunkSize * (i + 1) = chunkSize * i + chunkSize := by ring
    omega
  · have hcc : concurrency filesize chunkSize = filesize / chunkSize + 1 := by
      simp [concurrency, hr]
    rw [hcc] at hi
    have hle : chunkSize * i ≤ chunkSize * (filesize / chunkSize) :=
      Nat.mul_le_mul_left chunkSize (by omega)
    omega

/-- auxiliary: the planned offset actually handed to worker i. -/
theorem chunkOffset_getD {filesize chunkSize i : Nat}
    (hi : i < concurrency filesize chunkSize) :
    (chunkOffset filesize chunkSize).getD i 0 = chunkSize * i := by
  have hlen : i < (chunkOffset filesize chunkSize).length := by
    simpa [chunkOffset] using hi
  rw [List.getD_eq_getElem _ _ hlen]
  simp [chunkOffset]

/-- auxiliary: the only operations a worker can perform are its positioned
read, the error log, the channel receive and the wait-group decrement. -/
theorem mem_readChunk {e : Effect} {env : Nat → Nat → ReadAtResult}
    {co : List Nat} {i : Nat} (h : e ∈ readChunk env co i) :
    e = Effect.fileReadAt (co.getD i 0) asyncChunkSize ∨
      e = Effect.logPrintln ∨ e = Effect.chanReceive ∨ e = Effect.wgDone := by
  simp only [readChunk] at h
  split at h <;> simp only [List.mem_cons, List.mem_singleton,
    List.not_mem_nil, or_false] at h <;> tauto

/-- auxiliary: every operation of a run of asyncReadFile is the stat, a log
line, a synchronization operation, or a positioned read of a full chunk at a
planned offset. -/
theorem mem_asyncReadFileEffects {e : Effect} {statSize : Option Nat}
    {env : Nat → Nat → ReadAtResult}
    (h : e ∈ asyncReadFileEffects statSize env) :
    e = Effect.fileStat ∨ e = Effect.logPrintln ∨ e = Effect.wgAdd ∨
      e = Effect.chanSend ∨ e = Effect.wgWait ∨ e = Effect.chanReceive ∨
      e = Effect.wgDone ∨
      ∃ i, i < concurrency (statSize.getD 0) asyncChunkSize ∧
        e = Effect.fileReadAt (asyncChunkSize * i) asyncChunkSize := by
  cases statSize with
  | none =>
      simp only [asyncReadFileEffects, List.mem_cons, List.mem_singleton,
        List.not_mem_nil, or_false] at h
      tauto
  | some filesize =>
      simp only [asyncReadFileEffects] at h
      rcases List.mem_cons.mp h with h | h
      · exact Or.inl h
      rcases List.mem_append.mp h with h | h
      · rcases List.mem_flatMap.mp h with ⟨i, hir, hmem⟩
        have hi : i < concurrency filesize asyncChunkSize := List.mem_range.mp hir
        rcases List.mem_cons.mp hmem with h1 | h1
        · exact Or.inr (Or.inr (Or.inl h1))
        rcases List.mem_cons.mp h1 with h2 | h2
        · exact Or.inr (Or.inr (Or.inr (Or.inl h2)))
        rcases mem_readChunk h2 with h3 | h3 | h3 | h3
        · refine Or.inr (Or.inr (Or.inr (Or.inr (Or.inr (Or.inr (Or.inr
            ⟨i, by simpa using hi, ?_⟩))))))
          rw [h3, chunkOffset_getD hi]
        · exact Or.inr (Or.inl h3)
        · exact Or.inr (Or.inr (Or.inr (Or.inr (Or.inr (Or.inl h3)))))
        · exact Or.inr (Or.inr (Or.inr (Or.inr (Or.inr (Or.inr (Or.inl h3))))))
      · have he := List.mem_singleton.mp h
        subst he
        exact Or.inr (Or.inr (Or.inr (Or.inr (Or.inl rfl))))

/-- auxiliary: no run of asyncReadFile ever closes the file handle. -/
theorem close_not_mem (statSize : Option Nat)
    (env : Nat → Nat → ReadAtResult) :
    Effect.fileClose ∉ asyncReadFileEffects statSize env := by
  intro h
  rcases mem_asyncReadFileEffects h with h | h | h | h | h | h | h | ⟨i, hi, h⟩ <;>
    exact Effect.noConfusion h

/-- auxiliary: a sequence of operations that contains no close leaves the
file handle unchanged. -/
theorem applyEffects_of_no_close :
    ∀ (es : List Effect) (f : FileHandle),
      (∀ e ∈ es, e ≠ Effect.fileClose) → applyEffects f es = f := by
  intro es
  induction es with
  | nil => intro f _; rfl
  | cons a as ih =>
      intro f h
      have ha := h a (List.mem_cons_self a as)
      have hstep : applyEffect f a = f := by
        cases a <;> first | rfl | exact absurd rfl ha
      have hfold : applyEffects f (a :: as) = applyEffects (applyEffect f a) as := rfl
      rw [hfold, hstep]
      exact ih f (fun e he => h e (List.mem_cons_of_mem a he))

/-- C1: the claim fails on the code. A worker whose ReadAt ends with an error
other than io.EOF returns at line 117 of fileReader.go before reaching lines
120-121, so it performs no channel receive and no wg.Done at all: the
admission slot is never released and the completion barrier is never
signalled on the failure path. Evaluated at the plan for a 2500000-byte file
with the read of chunk 0 failing. -/
theorem failing_worker_releases_nothing :
    (readChunk (fun _ _ => ⟨0, some GoErr.ioErr⟩)
        (chunkOffset 2500000 asyncChunkSize) 0).count Effect.chanReceive = 0 ∧
      (readChunk (fun _ _ => ⟨0, some GoErr.ioErr⟩)
        (chunkOffset 2500000 asyncChunkSize) 0).count Effect.wgDone = 0 ∧
      (readChunk (fun _ _ => ⟨0, some GoErr.ioErr⟩)
        (chunkOffset 2500000 asyncChunkSize) 0).count Effect.logPrintln = 1 := by
  decide

/-- C2: the claim fails on the code. With one planned chunk, capacity one and
that single read failing with a non-EOF error, the run reaches a state in
which every worker has finished and no further step is possible, yet the
wait-group counter is still nonzero: wg.Wait at line 108 can never return, so
the orchestrator does not return when a chunk read fails. -/
theorem failed_chunk_hangs_wait :
    ∃ s : OrchState, Reachable 1 (initState 1) s ∧ s.toDispatch = 0 ∧
      s.reading = 0 ∧ s.wg ≠ 0 ∧ ∀ t, ¬ OrchStep 1 s t := by
  refine ⟨⟨0, 1, 0, 1⟩, ?_, rfl, rfl, by decide, ?_⟩
  · have h1 : OrchStep 1 (initState 1) ⟨0, 1, 1, 1⟩ :=
      OrchStep.dispatch (initState 1) (by decide) (by decide)
    have h2 : OrchStep 1 ⟨0, 1, 1, 1⟩ ⟨0, 1, 0, 1⟩ :=
      OrchStep.finishFail ⟨0, 1, 1, 1⟩ (by decide)
    exact Reachable.step (Reachable.step (Reachable.refl _) h1) h2
  · intro t ht
    cases ht with
    | dispatch hd hs => exact hd rfl
    | finishOk hr hs => exact hr rfl
    | finishFail hr => exact hr rfl

/-- C3: in every state reachable during a parallel read, the number of
workers concurrently executing their chunk read is at most the channel
capacity (the reported hardware execution-unit count), and when the channel
is full no step can dispatch a further worker: the loop at line 104 suspends
until a slot is free. -/
theorem workers_bounded_by_cap {cap n : Nat} {s : OrchState}
    (h : Reachable cap (initState n) s) :
    s.reading ≤ cap ∧
      (s.slots = cap → ∀ t, OrchStep cap s t → t.toDispatch = s.toDispatch) := by
  refine ⟨?_, ?_⟩
  · have := orch_invariant h
    omega
  · intro hfull t ht
    cases ht with
    | dispatch hd hs => exact absurd hs (by omega)
    | finishOk hr hs => rfl
    | finishFail hr => rfl

/-- witness for C3: one dispatch step from a five-chunk plan under capacity
two leads to a reachable state satisfying the bound. -/
theorem workers_bounded_by_cap_witness :
    (⟨4, 1, 1, 1⟩ : OrchState).reading ≤ 2 ∧
      ((⟨4, 1, 1, 1⟩ : OrchState).slots = 2 →
        ∀ t, OrchStep 2 ⟨4, 1, 1, 1⟩ t →
          t.toDispatch = (⟨4, 1, 1, 1⟩ : OrchState).toDispatch) :=
  workers_bounded_by_cap
    (Reachable.step (Reachable.refl (initState 5))
      (OrchStep.dispatch (initState 5) (by decide) (by decide)))

/-- C4: for every file size and positive chunk size, the chunk plan has
exactly ceil(filesize / chunkSize) offsets, offset i equals i * chunkSize,
every offset lies strictly below the file size, and the plan is empty for an
empty file. -/
theorem chunk_plan_spec (filesize chunkSize : Nat) (hc : 0 < chunkSize) :
    (chunkOffset filesize chunkSize).length =
        (filesize + chunkSize - 1) / chunkSize ∧
      (∀ i, i < (chunkOffset filesize chunkSize).length →
        (chunkOffset filesize chunkSize).getD i 0 = i * chunkSize) ∧
      (∀ off ∈ chunkOffset filesize chunkSize, off < filesize) ∧
      (filesize = 0 → chunkOffset filesize chunkSize = []) := by
  refine ⟨?_, ?_, ?_, ?_⟩
  · simpa [chunkOffset] using concurrency_eq_ceil filesize chunkSize hc
  · intro i hi
    have hi2 : i < concurrency filesize chunkSize := by
      simpa [chunkOffset] using hi
    rw [chunkOffset_getD hi2, Nat.mul_comm]
  · intro off hoff
    simp only [chunkOffset, List.mem_map, List.mem_range] at hoff
    rcases hoff with ⟨i, hi, rfl⟩
    exact mul_lt_of_lt_concurrency hc hi
  · intro h0
    subst h0
    simp [chunkOffset, concurrency]

/-- witness for C4: the plan of a 2500000-byte file with 1 MiB chunks. -/
theorem chunk_plan_spec_witness :
    0 < 1048576 ∧
      ((chunkOffset 2500000 1048576).length =
          (2500000 + 1048576 - 1) / 1048576 ∧
        (∀ i, i < (chunkOffset 2500000 1048576).length →
          (chunkOffset 2500000 1048576).getD i 0 = i * 1048576) ∧
        (∀ off ∈ chunkOffset 2500000 1048576, off < 2500000) ∧
        (2500000 = 0 → chunkOffset 2500000 1048576 = [])) :=
  ⟨by decide, chunk_plan_spec 2500000 1048576 (by decide)⟩

/-- C5: a worker whose positioned read ends with io.EOF reports no error and
behaves exactly as on a full read: the condition at line 115 excludes io.EOF,
so the worker logs nothing and proceeds to the channel receive and wg.Done of
lines 120-121. -/
theorem eof_read_is_success (env : Nat → Nat → ReadAtResult) (co : List Nat)
    (i : Nat)
    (h : (env (co.getD i 0) asyncChunkSize).err = some GoErr.eof) :
    Effect.logPrintln ∉ readChunk env co i ∧
      readChunk env co i =
        [Effect.fileReadAt (co.getD i 0) asyncChunkSize, Effect.chanReceive,
          Effect.wgDone] := by
  have hcond : ¬((env (co.getD i 0) asyncChunkSize).err ≠ none ∧
      (env (co.getD i 0) asyncChunkSize).err ≠ some GoErr.eof) := by
    rw [h]
    decide
  have hlist : readChunk env co i =
      [Effect.fileReadAt (co.getD i 0) asyncChunkSize, Effect.chanReceive,
        Effect.wgDone] := by
    simp only [readChunk]
    rw [if_neg hcond]
  refine ⟨?_, hlist⟩
  rw [hlist]
  simp

/-- witness for C5: the third chunk of a 2500000-byte file overruns the end
of the file, its read ends with io.EOF, and the worker completes as on
success. -/
theorem eof_read_is_success_witness :
    (healthyReadAt 2500000 ((chunkOffset 2500000 asyncChunkSize).getD 2 0)
        asyncChunkSize).err = some GoErr.eof ∧
      (Effect.logPrintln ∉ readChunk (healthyReadAt 2500000)
          (chunkOffset 2500000 asyncChunkSize) 2 ∧
        readChunk (healthyReadAt 2500000)
            (chunkOffset 2500000 asyncChunkSize) 2 =
          [Effect.fileReadAt
              ((chunkOffset 2500000 asyncChunkSize).getD 2 0) asyncChunkSize,
            Effect.chanReceive, Effect.wgDone]) :=
  ⟨by decide, eof_read_is_success (healthyReadAt 2500000)
      (chunkOffset 2500000 asyncChunkSize) 2 (by decide)⟩

/-- C6: every worker, whatever its index and whatever outcome the read has,
performs exactly one positioned read and requests a full asyncChunkSize
buffer for it (line 113 allocates make([]byte, asyncChunkSize) for every
chunk, with no clamping to the bytes remaining before end of file). -/
theorem every_read_requests_full_chunk (env : Nat → Nat → ReadAtResult)
    (co : List Nat) (i : Nat) :
    requestedLengths (readChunk env co i) = [asyncChunkSize] := by
  simp only [readChunk]
  split <;> rfl

/-- C7: when file.Stat fails, asyncReadFile logs the error and returns at
lines 61-64: the whole run consists of the stat and one log line, so no chunk
plan is acted on, no read is issued, no worker is dispatched, and the process
is not terminated. -/
theorem stat_failure_aborts (env : Nat → Nat → ReadAtResult) :
    asyncReadFileEffects none env = [Effect.fileStat, Effect.logPrintln] ∧
      Effect.logPrintln ∈ asyncReadFileEffects none env ∧
      (∀ off len, Effect.fileReadAt off len ∉ asyncReadFileEffects none env) ∧
      Effect.wgAdd ∉ asyncReadFileEffects none env ∧
      Effect.chanSend ∉ asyncReadFileEffects none env ∧
      Effect.osExit ∉ asyncReadFileEffects none env := by
  refine ⟨rfl, by simp [asyncReadFileEffects], ?_,
    by simp [asyncReadFileEffects], by simp [asyncReadFileEffects],
    by simp [asyncReadFileEffects]⟩
  intro off len
  simp [asyncReadFileEffects]

/-- C8: for a 2500000-byte file with 1 MiB chunks the plan is exactly the
three offsets 0, 1048576 and 2097152; the read of the third chunk returns
402848 bytes together with io.EOF, and the worker logs no error and signals
completion. -/
theorem scenario_three_chunk_plan :
    chunkOffset 2500000 asyncChunkSize = [0, 1048576, 2097152] ∧
      healthyReadAt 2500000 2097152 asyncChunkSize =
        ⟨402848, some GoErr.eof⟩ ∧
      Effect.logPrintln ∉ readChunk (healthyReadAt 2500000)
          (chunkOffset 2500000 asyncChunkSize) 2 ∧
      (readChunk (healthyReadAt 2500000)
          (chunkOffset 2500000 asyncChunkSize) 2).count Effect.wgDone = 1 := by
  decide

/-- C9: a run of asyncReadFile never closes the file handle, leaves the
state of the handle unchanged, and touches the file only through the stat and
through positioned reads, each at an explicit planned offset with the full
chunk length. -/
theorem orchestrator_borrows_handle (statSize : Option Nat)
    (env : Nat → Nat → ReadAtResult) (f : FileHandle) :
    Effect.fileClose ∉ asyncReadFileEffects statSize env ∧
      applyEffects f (asyncReadFileEffects statSize env) = f ∧
      (∀ off len,
        Effect.fileReadAt off len ∈ asyncReadFileEffects statSize env →
          len = asyncChunkSize ∧ ∃ i, off = asyncChunkSize * i) := by
  refine ⟨close_not_mem statSize env, ?_, ?_⟩
  · exact applyEffects_of_no_close _ f
      (fun e he hcl => close_not_mem statSize env (hcl ▸ he))
  · intro off len hmem
    rcases mem_asyncReadFileEffects hmem with h | h | h | h | h | h | h |
      ⟨i, hi, h⟩
    · exact Effect.noConfusion h
    · exact Effect.noConfusion h
    · exact Effect.noConfusion h
    · exact Effect.noConfusion h
    · exact Effect.noConfusion h
    · exact Effect.noConfusion h
    · exact Effect.noConfusion h
    · injection h with h1 h2
      exact ⟨h2, i, h1⟩

/-- C10: a worker whose read ends with a nil error or with io.EOF performs
exactly one channel receive and exactly one wg.Done: the success path of
lines 120-121 releases the admission slot once and signals the completion
barrier once, never zero times and never twice. -/
theorem successful_worker_releases_exactly_once
    (env : Nat → Nat → ReadAtResult) (co : List Nat) (i : Nat)
    (h : (env (co.getD i 0) asyncChunkSize).err = none ∨
      (env (co.getD i 0) asyncChunkSize).err = some GoErr.eof) :
    (readChunk env co i).count Effect.chanReceive = 1 ∧
      (readChunk env co i).count Effect.wgDone = 1 := by
  have hcond : ¬((env (co.getD i 0) asyncChunkSize).err ≠ none ∧
      (env (co.getD i 0) asyncChunkSize).err ≠ some GoErr.eof) := by
    rcases h with h | h <;> rw [h] <;> decide
  have hlist : readChunk env co i =
      [Effect.fileReadAt (co.getD i 0) asyncChunkSize, Effect.chanReceive,
        Effect.wgDone] := by
    simp only [readChunk]
    rw [if_neg hcond]
  rw [hlist]
  constructor <;> rfl

/-- witness for C10: a full 1 MiB read with a nil error releases the slot and
signals the barrier exactly once. -/
theorem successful_worker_releases_exactly_once_witness :
    (((fun _ _ => ⟨asyncChunkSize, none⟩ : Nat → Nat → ReadAtResult)
        (([0] : List Nat).getD 0 0) asyncChunkSize).err = none ∨
      ((fun _ _ => ⟨asyncChunkSize, none⟩ : Nat → Nat → ReadAtResult)
        (([0] : List Nat).getD 0 0) asyncChunkSize).err = some GoErr.eof) ∧
      ((readChunk (fun _ _ => ⟨asyncChunkSize, none⟩) [0] 0).count
          Effect.chanReceive = 1 ∧
        (readChunk (fun _ _ => ⟨asyncChunkSize, none⟩) [0] 0).count
          Effect.wgDone = 1) :=
  ⟨Or.inl rfl, successful_worker_releases_exactly_once
    (fun _ _ => ⟨asyncChunkSize, none⟩) [0] 0 (Or.inl rfl)⟩

end FileReader
